import Mathlib

/-!
Verification development for a time-series forecasting toolkit built as an
orchestration layer over injected tabular regressors.  The toolkit manages
lag-feature construction, per-series encoding for multi-series data, residual
bookkeeping for bootstrapped prediction intervals, hyperparameter grid search
and calendar-feature preprocessing.  Numeric values are modelled as rationals,
residual stores and data frames as association lists, and the injected
regressor as an abstract function from a design matrix and targets to a
row-wise prediction function.
-/

namespace Skforecast

/-- Cap on the number of training residuals kept per horizon or per series
(the residual store keeps a bounded sample, observed cap 1000). -/
def residualSampleCap : ℕ := 1000

/-- Fixed seed for the pseudo-random sampling of residuals: sampling is
deterministic across runs because the generator is seeded with a constant. -/
def residualSampleSeed : ℕ := 123

/-- One step of a 64-bit linear congruential pseudo-random generator, used to
model the deterministically seeded sampling of residuals. -/
def rngNext (s : ℕ) : ℕ := (6364136223846793005 * s + 1442695040888963407) % (2 ^ 64)

/-- Pseudo-random sample of `k` elements, drawn without replacement from `xs`,
fully determined by the seed `s`. -/
def sampleWithoutReplacement : ℕ → ℕ → List ℚ → List ℚ
  | _, 0, _ => []
  | s, k + 1, xs =>
    if xs.length = 0 then []
    else
      let i := s % xs.length
      xs.getD i 0 :: sampleWithoutReplacement (rngNext s) k (xs.eraseIdx i)

/-- Modelled from the spec: the residual store keeps "a bounded sample of
training residuals, capped at a fixed sample size (observed cap: 1000)".
Residual lists at most `cap` long are kept whole; longer ones are replaced by
a deterministic pseudo-random sample of exactly `cap` residuals. -/
def sampleCap (cap : ℕ) (xs : List ℚ) : List ℚ :=
  if xs.length ≤ cap then xs else sampleWithoutReplacement residualSampleSeed cap xs

/-- Abstract injected regressor: from a design matrix and a target vector,
produce the fitted row-wise prediction function.  The toolkit delegates all
actual fitting and predicting to such a regressor. -/
def Regressor : Type := List (List ℚ) → List ℚ → List ℚ → ℚ

/-- Number of training rows available to a direct multi-step forecaster on a
series of length `n` with `lags` lag features and `steps` horizons: each row
needs `lags` past values and the last horizon needs `steps` future values. -/
def nTrainDirect (n lags steps : ℕ) : ℕ := n + 1 - lags - steps

/-- Lag-feature row starting at position `i` of the series: the `lags`
consecutive past values, most recent first. -/
def lagRow (y : List ℚ) (lags i : ℕ) : List ℚ :=
  ((List.range lags).map fun j => y.getD (i + j) 0).reverse

/-- Design matrix shared by all horizons of a direct forecaster. -/
def designMatrix (y : List ℚ) (lags steps : ℕ) : List (List ℚ) :=
  (List.range (nTrainDirect y.length lags steps)).map (lagRow y lags)

/-- Target vector of horizon `h` (1-based): the value `h` steps after the end
of each lag window. -/
def targetsFor (y : List ℚ) (lags steps h : ℕ) : List ℚ :=
  (List.range (nTrainDirect y.length lags steps)).map fun i => y.getD (i + lags + h - 1) 0

/-- Modelled from the spec: the implementation of the direct forecaster is
absent from the tree (only its tests are present); "direct forecasting" fits
one regressor per forecast horizon, and the training residuals of horizon `h`
are the differences between the targets of `h` and the in-sample predictions
of the regressor fitted for `h`. -/
def residualsFor (reg : Regressor) (y : List ℚ) (lags steps h : ℕ) : List ℚ :=
  let X := designMatrix y lags steps
  let t := targetsFor y lags steps h
  List.zipWith (fun yv xrow => yv - reg X t xrow) t X

/-- Residual store of a fitted direct forecaster: a mapping from horizon label
to an optional residual sample. -/
structure DirectFitResult where
  in_sample_residuals : List (ℕ × Option (List ℚ))

/-- Modelled from the spec: fitting a direct multi-step forecaster with
horizons `1 .. steps` stores, per horizon, a bounded sample of that horizon's
training residuals (capped at `residualSampleCap`) when
`store_in_sample_residuals` is true, and `none` for every horizon otherwise. -/
def directFit (reg : Regressor) (y : List ℚ) (lags steps : ℕ)
    (store_in_sample_residuals : Bool) : DirectFitResult :=
  { in_sample_residuals :=
      (List.range' 1 steps).map fun h =>
        (h, if store_in_sample_residuals
            then some (sampleCap residualSampleCap (residualsFor reg y lags steps h))
            else none) }

theorem length_sampleWithoutReplacement (s k : ℕ) (xs : List ℚ) :
    (sampleWithoutReplacement s k xs).length = min k xs.length := by
  induction k generalizing s xs with
  | zero => simp [sampleWithoutReplacement]
  | succ k ih =>
    by_cases h : xs.length = 0
    · simp [sampleWithoutReplacement, h]
    · have hpos : 0 < xs.length := Nat.pos_of_ne_zero h
      have hi : s % xs.length < xs.length := Nat.mod_lt _ hpos
      simp only [sampleWithoutReplacement, h, if_false, List.length_cons, ih]
      rw [List.length_eraseIdx, if_pos hi]
      omega

theorem length_sampleCap (cap : ℕ) (xs : List ℚ) :
    (sampleCap cap xs).length = min cap xs.length := by
  unfold sampleCap
  by_cases h : xs.length ≤ cap
  · rw [if_pos h]; omega
  · rw [if_neg h, length_sampleWithoutReplacement]

theorem length_residualsFor (reg : Regressor) (y : List ℚ) (lags steps h : ℕ) :
    (residualsFor reg y lags steps h).length = nTrainDirect y.length lags steps := by
  unfold residualsFor designMatrix targetsFor
  simp

/-- Regressor predicting the constant zero, used to instantiate universally
quantified statements at a concrete input. -/
def zeroReg : Regressor := fun _ _ _ => 0

/-- C1: after fitting a direct forecaster with store_in_sample_residuals=true,
every stored value of in_sample_residuals is a residual list of length at most
1000, whatever the number of training residuals available for a horizon. -/
theorem direct_fit_residuals_capped (reg : Regressor) (y : List ℚ) (lags steps : ℕ)
    (p : ℕ × Option (List ℚ)) (r : List ℚ)
    (hp : p ∈ (directFit reg y lags steps true).in_sample_residuals)
    (hr : p.2 = some r) : r.length ≤ 1000 := by
  simp only [directFit, List.mem_map] at hp
  obtain ⟨h, _, rfl⟩ := hp
  simp only [if_pos, Option.some.injEq] at hr
  have hlen := length_sampleCap residualSampleCap (residualsFor reg y lags steps h)
  rw [hr] at hlen
  have : min residualSampleCap (residualsFor reg y lags steps h).length
      ≤ residualSampleCap := Nat.min_le_left _ _
  rw [← hlen] at this
  simpa [residualSampleCap] using this

theorem direct_fit_residuals_capped_witness :
    ([] : List ℚ).length ≤ 1000 :=
  direct_fit_residuals_capped zeroReg [] 3 2 (1, some []) []
    (by decide) rfl

/-- C6: after fitting a direct forecaster with steps horizons, the
in_sample_residuals store has keys exactly the horizons 1 through steps; with
store_in_sample_residuals=true each horizon maps to that horizon's (capped)
training-residual sample, and with store_in_sample_residuals=false every
horizon maps to none. -/
theorem direct_fit_in_sample_residuals_keys (reg : Regressor) (y : List ℚ)
    (lags steps : ℕ) :
    ((directFit reg y lags steps true).in_sample_residuals.map Prod.fst
        = List.range' 1 steps)
    ∧ (∀ h ∈ List.range' 1 steps,
        (h, some (sampleCap residualSampleCap (residualsFor reg y lags steps h)))
          ∈ (directFit reg y lags steps true).in_sample_residuals)
    ∧ ((directFit reg y lags steps false).in_sample_residuals.map Prod.fst
        = List.range' 1 steps)
    ∧ (∀ p ∈ (directFit reg y lags steps false).in_sample_residuals, p.2 = none) := by
  refine ⟨?_, ?_, ?_, ?_⟩
  · simp [directFit, List.map_map, Function.comp_def]
  · intro h hh
    simp only [directFit, List.mem_map]
    exact ⟨h, hh, by simp⟩
  · simp [directFit, List.map_map, Function.comp_def]
  · intro p hp
    simp only [directFit, List.mem_map] at hp
    obtain ⟨h, _, rfl⟩ := hp
    simp

/-- C9: fitting two direct forecasters with identical arguments on the same
series yields element-wise identical in_sample_residuals stores, and every
stored sample has length min 1000 nTrain — so when more than 1000 residuals
are available per horizon, both runs keep the same 1000-element subsample:
the subsampling is deterministic. -/
theorem direct_fit_deterministic (reg₁ reg₂ : Regressor) (y₁ y₂ : List ℚ)
    (lags₁ lags₂ steps₁ steps₂ : ℕ)
    (hreg : reg₁ = reg₂) (hy : y₁ = y₂) (hlags : lags₁ = lags₂)
    (hsteps : steps₁ = steps₂) :
    ((directFit reg₁ y₁ lags₁ steps₁ true).in_sample_residuals
        = (directFit reg₂ y₂ lags₂ steps₂ true).in_sample_residuals)
    ∧ (∀ p ∈ (directFit reg₁ y₁ lags₁ steps₁ true).in_sample_residuals,
        ∀ r, p.2 = some r →
          r.length = min residualSampleCap (nTrainDirect y₁.length lags₁ steps₁)) := by
  subst hreg hy hlags hsteps
  refine ⟨rfl, ?_⟩
  intro p hp r hr
  simp only [directFit, List.mem_map] at hp
  obtain ⟨h, _, rfl⟩ := hp
  simp only [if_pos, Option.some.injEq] at hr
  rw [← hr, length_sampleCap, length_residualsFor]

theorem direct_fit_deterministic_witness :
    ((directFit zeroReg [0, 1, 2, 3, 4] 3 2 true).in_sample_residuals
        = (directFit zeroReg [0, 1, 2, 3, 4] 3 2 true).in_sample_residuals)
    ∧ (∀ p ∈ (directFit zeroReg [0, 1, 2, 3, 4] 3 2 true).in_sample_residuals,
        ∀ r, p.2 = some r →
          r.length = min residualSampleCap
            (nTrainDirect (([0, 1, 2, 3, 4] : List ℚ)).length 3 2)) :=
  direct_fit_deterministic zeroReg zeroReg [0, 1, 2, 3, 4] [0, 1, 2, 3, 4]
    3 3 2 2 rfl rfl rfl rfl

/-! Grid search over lag sets and hyperparameter combinations. -/

/-- Hyperparameter assignment: association list from parameter name to value. -/
abbrev Params := List (String × ℚ)

/-- One row of the grid-search result table: the candidate's lag set, its
hyperparameters, and one value per requested metric. -/
structure GridRow where
  lags : List ℕ
  params : Params
  metrics : List (String × ℚ)

/-- The forecaster state grid search touches: its lag set and the
hyperparameters set on its regressor. -/
structure GridForecaster where
  lags : List ℕ
  params : Params

/-- Value of the first metric of a result row: the ranking key. -/
def firstMetricVal (r : GridRow) : ℚ :=
  match r.metrics with
  | [] => 0
  | m :: _ => m.2

/-- Ranking relation on result rows: ascending value of the first metric. -/
def gridLe (a b : GridRow) : Bool := firstMetricVal a ≤ firstMetricVal b

/-- Modelled from the spec: the model_selection module is absent from the tree
(only its tests are); the helper "iterates over hyperparameter and lag
combinations".  When no lag grid is given, the single lag candidate is the
forecaster's own lag set. -/
def gridCandidates (fc : GridForecaster) (lagsGrid : Option (List (List ℕ)))
    (paramGrid : List Params) : List (List ℕ × Params) :=
  (lagsGrid.getD [fc.lags]).flatMap fun l => paramGrid.map fun p => (l, p)

/-- Result rows before ranking: one row per candidate, holding one value per
requested metric.  Backtesting over rolling windows is abstracted as the
injected evaluation function `evalMetric`. -/
def gridRows (evalMetric : List ℕ → Params → String → ℚ) (metricNames : List String)
    (cands : List (List ℕ × Params)) : List GridRow :=
  cands.map fun c =>
    { lags := c.1, params := c.2,
      metrics := metricNames.map fun m => (m, evalMetric c.1 c.2 m) }

/-- Output of the grid-search helper: the ranked result table and the
(possibly refitted) forecaster. -/
structure GridResult where
  results : List GridRow
  forecaster : GridForecaster

/-- Modelled from the spec: the grid-search/backtesting helper
"refits/backtests via rolling windows, and ranks candidates by one or more
metrics".  Rows are ranked by ascending first metric; with return_best the
forecaster is refitted with the best candidate's lag set and parameters. -/
def evaluate_grid_hyperparameters (fc : GridForecaster)
    (lagsGrid : Option (List (List ℕ))) (paramGrid : List Params)
    (metricNames : List String) (evalMetric : List ℕ → Params → String → ℚ)
    (return_best : Bool) : GridResult :=
  let rows :=
    (gridRows evalMetric metricNames (gridCandidates fc lagsGrid paramGrid)).mergeSort gridLe
  { results := rows
    forecaster :=
      if return_best then
        match rows.head? with
        | some best => { lags := best.lags, params := best.params }
        | none => fc
      else fc }

theorem length_flatMap_product {α β γ : Type} (ls : List α) (ps : List β)
    (f : α → β → γ) :
    (ls.flatMap fun l => ps.map (f l)).length = ls.length * ps.length := by
  induction ls with
  | nil => simp
  | cons a t ih => simp [ih, Nat.succ_mul, Nat.add_comm]

theorem gridLe_trans (a b c : GridRow) :
    gridLe a b = true → gridLe b c = true → gridLe a c = true := by
  simp only [gridLe, decide_eq_true_eq]
  exact le_trans

theorem gridLe_total (a b : GridRow) : (gridLe a b || gridLe b a) = true := by
  simp only [gridLe, Bool.or_eq_true, decide_eq_true_eq]
  exact le_total _ _

/-- C2: with return_best=false the helper returns exactly one row per
(lags, hyperparameter) combination — len(lags_grid) * len(param_grid) rows,
with the single lag candidate taken from the forecaster's own lags when
lags_grid is none — and the rows are ordered by ascending first metric. -/
theorem evaluate_grid_rows_shape (fc : GridForecaster)
    (lagsGrid : Option (List (List ℕ))) (paramGrid : List Params)
    (metricNames : List String) (evalMetric : List ℕ → Params → String → ℚ) :
    ((evaluate_grid_hyperparameters fc lagsGrid paramGrid metricNames evalMetric
        false).results.length = (lagsGrid.getD [fc.lags]).length * paramGrid.length)
    ∧ ((evaluate_grid_hyperparameters fc lagsGrid paramGrid metricNames evalMetric
        false).results.Perm
          (gridRows evalMetric metricNames (gridCandidates fc lagsGrid paramGrid)))
    ∧ ((evaluate_grid_hyperparameters fc lagsGrid paramGrid metricNames evalMetric
        false).results.Pairwise fun a b => firstMetricVal a ≤ firstMetricVal b)
    ∧ (lagsGrid = none →
        gridCandidates fc lagsGrid paramGrid = paramGrid.map fun p => (fc.lags, p)) := by
  refine ⟨?_, ?_, ?_, ?_⟩
  · simp only [evaluate_grid_hyperparameters, List.length_mergeSort, gridRows,
      List.length_map, gridCandidates]
    exact length_flatMap_product _ _ _
  · exact List.mergeSort_perm _ _
  · have h := List.sorted_mergeSort gridLe_trans gridLe_total
      (gridRows evalMetric metricNames (gridCandidates fc lagsGrid paramGrid))
    exact h.imp fun hab => by simpa [gridLe, decide_eq_true_eq] using hab
  · intro h
    subst h
    simp [gridCandidates]

/-- Sort relation induced on candidates by the head metric `m`. -/
def candKeyLe (evalMetric : List ℕ → Params → String → ℚ) (m : String)
    (a b : List ℕ × Params) : Bool :=
  evalMetric a.1 a.2 m ≤ evalMetric b.1 b.2 m

theorem mergeSort_gridRows_cons (evalMetric : List ℕ → Params → String → ℚ)
    (m : String) (t : List String) (cands : List (List ℕ × Params)) :
    (gridRows evalMetric (m :: t) cands).mergeSort gridLe
      = ((cands.mergeSort (candKeyLe evalMetric m)).map
          fun c => { lags := c.1, params := c.2,
                     metrics := (m :: t).map fun mn => (mn, evalMetric c.1 c.2 mn) :
                       GridRow }) := by
  unfold gridRows
  refine (List.map_mergeSort ?_).symm
  intro a _ b _
  simp [candKeyLe, gridLe, firstMetricVal]

/-- C3: with return_best=true the forecaster is refitted with the lag set and
regressor hyperparameters of a candidate that minimises the first metric, and
only the first listed metric decides the choice: two metric lists with the
same first name yield the same refitted forecaster. -/
theorem evaluate_grid_return_best (fc : GridForecaster)
    (lagsGrid : Option (List (List ℕ))) (paramGrid : List Params)
    (metricNames₁ metricNames₂ : List String)
    (evalMetric : List ℕ → Params → String → ℚ)
    (hc : gridCandidates fc lagsGrid paramGrid ≠ [])
    (hm : metricNames₁.head? = metricNames₂.head?) :
    (∃ best ∈ gridRows evalMetric metricNames₁ (gridCandidates fc lagsGrid paramGrid),
        (evaluate_grid_hyperparameters fc lagsGrid paramGrid metricNames₁ evalMetric
            true).forecaster = { lags := best.lags, params := best.params }
        ∧ ∀ r ∈ gridRows evalMetric metricNames₁ (gridCandidates fc lagsGrid paramGrid),
            firstMetricVal best ≤ firstMetricVal r)
    ∧ (evaluate_grid_hyperparameters fc lagsGrid paramGrid metricNames₁ evalMetric
        true).forecaster
      = (evaluate_grid_hyperparameters fc lagsGrid paramGrid metricNames₂ evalMetric
        true).forecaster := by
  constructor
  · have hperm := List.mergeSort_perm
      (gridRows evalMetric metricNames₁ (gridCandidates fc lagsGrid paramGrid)) gridLe
    have hpair := List.sorted_mergeSort gridLe_trans gridLe_total
      (gridRows evalMetric metricNames₁ (gridCandidates fc lagsGrid paramGrid))
    have hne : (gridRows evalMetric metricNames₁
        (gridCandidates fc lagsGrid paramGrid)).mergeSort gridLe ≠ [] := by
      intro h
      apply hc
      have hl := congrArg List.length h
      rw [List.length_mergeSort] at hl
      unfold gridRows at hl
      rw [List.length_map] at hl
      exact List.eq_nil_of_length_eq_zero hl
    obtain ⟨b, t, hbt⟩ := List.exists_cons_of_ne_nil hne
    refine ⟨b, hperm.subset (hbt ▸ List.mem_cons_self b t), ?_, ?_⟩
    · simp only [evaluate_grid_hyperparameters, if_true]
      rw [hbt]
      rfl
    · intro r hr
      have hrs : r ∈ (gridRows evalMetric metricNames₁
          (gridCandidates fc lagsGrid paramGrid)).mergeSort gridLe :=
        hperm.symm.subset hr
      rw [hbt] at hrs hpair
      rcases List.mem_cons.mp hrs with h | h
      · subst h
        exact le_refl _
      · have hb := (List.pairwise_cons.mp hpair).1 r h
        simpa [gridLe, decide_eq_true_eq] using hb
  · cases metricNames₁ with
    | nil =>
      cases metricNames₂ with
      | nil => rfl
      | cons m2 t2 => simp at hm
    | cons m t1 =>
      cases metricNames₂ with
      | nil => simp at hm
      | cons m2 t2 =>
        simp only [List.head?_cons, Option.some.injEq] at hm
        subst hm
        simp only [evaluate_grid_hyperparameters, if_true]
        rw [mergeSort_gridRows_cons evalMetric m t1, mergeSort_gridRows_cons evalMetric m t2]
        rw [List.head?_map, List.head?_map]
        cases ((gridCandidates fc lagsGrid paramGrid).mergeSort
            (candKeyLe evalMetric m)).head? with
        | none => rfl
        | some c => rfl

/-- Metric evaluation that is constantly zero, used to instantiate
universally quantified statements at a concrete input. -/
def constMetric : List ℕ → Params → String → ℚ := fun _ _ _ => 0

/-- Concrete forecaster used to instantiate grid-search statements. -/
def demoGridForecaster : GridForecaster := { lags := [1, 2], params := [] }

/-- Concrete one-candidate hyperparameter grid. -/
def demoParamGrid : List Params := [[("alpha", 1)]]

theorem evaluate_grid_return_best_witness :
    (∃ best ∈ gridRows constMetric ["mse"]
        (gridCandidates demoGridForecaster none demoParamGrid),
        (evaluate_grid_hyperparameters demoGridForecaster none demoParamGrid ["mse"]
            constMetric true).forecaster = { lags := best.lags, params := best.params }
        ∧ ∀ r ∈ gridRows constMetric ["mse"]
            (gridCandidates demoGridForecaster none demoParamGrid),
            firstMetricVal best ≤ firstMetricVal r)
    ∧ (evaluate_grid_hyperparameters demoGridForecaster none demoParamGrid ["mse"]
        constMetric true).forecaster
      = (evaluate_grid_hyperparameters demoGridForecaster none demoParamGrid ["mse"]
        constMetric true).forecaster :=
  evaluate_grid_return_best demoGridForecaster none demoParamGrid ["mse"] ["mse"]
    constMetric (by simp [gridCandidates, demoParamGrid]) rfl

/-! Multi-series forecaster: per-level bootstrap predictions and intervals. -/

/-- Residual store of a multi-series forecaster: mapping from series label to
stored residuals; a `none` entry models a NaN or None residual value. -/
abbrev ResidualStore := List (String × List (Option ℚ))

/-- The label under which residuals are pooled when no per-series encoding is
used. -/
def unknownLevelKey : String := "_unknown_level"

/-- Modelled from the spec: the multi-series forecaster module is absent from
the tree (only its tests are); it fits "a shared model across many related
series, distinguished by an encoded series identifier", stores a per-series
residual sample and the last window of each series, and bootstraps residuals
for prediction intervals. -/
structure MultiSeriesForecaster where
  reg : List ℚ → ℚ
  encoding : Option String
  encodeLevel : String → ℚ
  fitted : Bool
  lastWindow : List (String × List ℚ)
  in_sample_residuals : ResidualStore
  out_sample_residuals : Option ResidualStore

/-- Feature row used to predict one step of a level: the lag values of its
last window, plus the encoded series identifier when an encoding is used
(with encoding none, no series identifier enters the features). -/
def featuresFor (f : MultiSeriesForecaster) (level : String) (lw : List ℚ) : List ℚ :=
  match f.encoding with
  | none => lw
  | some _ => lw ++ [f.encodeLevel level]

/-- One-step point prediction of a level from its last-window values. -/
def pointPredict (f : MultiSeriesForecaster) (level : String) (lw : List ℚ) : ℚ :=
  f.reg (featuresFor f level lw)

/-- Key under which a level's residuals are stored: the level itself when an
encoding distinguishes the series, and the shared pool otherwise. -/
def residKey (f : MultiSeriesForecaster) (level : String) : String :=
  match f.encoding with
  | none => unknownLevelKey
  | some _ => level

/-- Numeric residual values of a stored residual list. -/
def residualValues (l : List (Option ℚ)) : List ℚ := l.map fun x => x.getD 0

/-- Indices of the bootstrap draws (with replacement), fully determined by the
seed: the residual draws are shared by all levels of one call. -/
def bootIndices : ℕ → ℕ → ℕ → List ℕ
  | _, 0, _ => []
  | s, n + 1, len => (if len = 0 then 0 else s % len) :: bootIndices (rngNext s) n len

/-- Bootstrap sample (with replacement) of `nBoot` residuals. -/
def sampleResiduals (resid : List ℚ) (nBoot seed : ℕ) : List ℚ :=
  (bootIndices seed nBoot resid.length).map fun i => resid.getD i 0

/-- Bootstrap predictions of one level for one step ahead: the point
prediction shifted by each resampled residual of the level's residual pool. -/
def predictBootstrappingLevel (f : MultiSeriesForecaster) (store : ResidualStore)
    (level : String) (lw : List ℚ) (nBoot seed : ℕ) : List ℚ :=
  let resid := residualValues ((store.lookup (residKey f level)).getD [])
  (sampleResiduals resid nBoot seed).map fun e => pointPredict f level lw + e

/-- Value at fractional index `h` of the sorted values `s`: the element at
the floor of `h`, linearly interpolated towards the next element. -/
def quantileAt (h : ℚ) (s : List ℚ) : ℚ :=
  s.getD (Int.floor h).toNat 0
    + (h - Int.floor h)
      * (s.getD ((Int.floor h).toNat + 1) (s.getD (Int.floor h).toNat 0)
          - s.getD (Int.floor h).toNat 0)

/-- Linearly interpolated quantile of a list, as numpy percentile computes
it: index fraction q times (n - 1) into the sorted values. -/
def quantileLinear (q : ℚ) (xs : List ℚ) : ℚ :=
  if (xs.mergeSort fun a b => a ≤ b).length = 0 then 0
  else
    quantileAt (q * (((xs.mergeSort fun a b => a ≤ b).length : ℚ) - 1))
      (xs.mergeSort fun a b => a ≤ b)

/-- Modelled from the spec: predict_interval returns, per requested level,
the point prediction and the lower and upper quantiles of the bootstrapped
prediction distribution, in the columns level, level_lower_bound and
level_upper_bound. -/
def predict_interval (f : MultiSeriesForecaster) (levels : List String)
    (nBoot seed : ℕ) (lo hi : ℚ) : List (String × ℚ) :=
  levels.flatMap fun lv =>
    [(lv, pointPredict f lv ((f.lastWindow.lookup lv).getD [])),
     (lv ++ "_lower_bound",
      quantileLinear (lo / 100)
        (predictBootstrappingLevel f f.in_sample_residuals lv
          ((f.lastWindow.lookup lv).getD []) nBoot seed)),
     (lv ++ "_upper_bound",
      quantileLinear (hi / 100)
        (predictBootstrappingLevel f f.in_sample_residuals lv
          ((f.lastWindow.lookup lv).getD []) nBoot seed))]

theorem mem_bootIndices_lt (s n len : ℕ) (hlen : len ≠ 0) :
    ∀ i ∈ bootIndices s n len, i < len := by
  induction n generalizing s with
  | zero => intro i hi; simp [bootIndices] at hi
  | succ n ih =>
    intro i hi
    simp only [bootIndices, if_neg hlen, List.mem_cons] at hi
    rcases hi with h | h
    · subst h
      exact Nat.mod_lt _ (Nat.pos_of_ne_zero hlen)
    · exact ih _ _ h

theorem length_bootIndices (s n len : ℕ) : (bootIndices s n len).length = n := by
  induction n generalizing s with
  | zero => rfl
  | succ n ih => simp [bootIndices, ih]

theorem sampleResiduals_const (resid : List ℚ) (c : ℚ) (nBoot seed : ℕ)
    (hne : resid ≠ []) (hall : ∀ x ∈ resid, x = c) :
    ∀ y ∈ sampleResiduals resid nBoot seed, y = c := by
  intro y hy
  simp only [sampleResiduals, List.mem_map] at hy
  obtain ⟨i, hi, rfl⟩ := hy
  have hlen : resid.length ≠ 0 := by
    simpa [List.length_eq_zero] using hne
  have hilt := mem_bootIndices_lt seed nBoot resid.length hlen i hi
  rw [List.getD_eq_getElem resid 0 hilt]
  exact hall _ (List.getElem_mem hilt)

theorem length_sampleResiduals (resid : List ℚ) (nBoot seed : ℕ) :
    (sampleResiduals resid nBoot seed).length = nBoot := by
  simp [sampleResiduals, length_bootIndices]

theorem quantileLinear_const (q : ℚ) (xs : List ℚ) (v : ℚ) (hq0 : 0 ≤ q)
    (hq1 : q ≤ 1) (hne : xs ≠ []) (hall : ∀ x ∈ xs, x = v) :
    quantileLinear q xs = v := by
  have hperm := List.mergeSort_perm xs fun a b => a ≤ b
  have halls : ∀ x ∈ xs.mergeSort fun a b => a ≤ b, x = v := fun x hx =>
    hall x (hperm.subset hx)
  have hlen : (xs.mergeSort fun a b => a ≤ b).length = xs.length :=
    List.length_mergeSort xs
  have hpos : 0 < xs.length := List.length_pos.mpr hne
  have hlpos : 0 < (xs.mergeSort fun a b => a ≤ b).length := by omega
  have hlen0 : ¬((xs.mergeSort fun a b => a ≤ b).length = 0) := by omega
  unfold quantileLinear quantileAt
  rw [if_neg hlen0]
  have hn1 : (0 : ℚ) ≤ ((xs.mergeSort fun a b => a ≤ b).length : ℚ) - 1 := by
    have : (1 : ℚ) ≤ ((xs.mergeSort fun a b => a ≤ b).length : ℚ) := by
      exact_mod_cast hlpos
    linarith
  have hh0 : 0 ≤ q * (((xs.mergeSort fun a b => a ≤ b).length : ℚ) - 1) :=
    mul_nonneg hq0 hn1
  have hh1 : q * (((xs.mergeSort fun a b => a ≤ b).length : ℚ) - 1)
      ≤ ((xs.mergeSort fun a b => a ≤ b).length : ℚ) - 1 := by
    nlinarith
  have hfl : (Int.floor (q * (((xs.mergeSort fun a b => a ≤ b).length : ℚ) - 1))).toNat
      < (xs.mergeSort fun a b => a ≤ b).length := by
    have hfle : Int.floor (q * (((xs.mergeSort fun a b => a ≤ b).length : ℚ) - 1))
        ≤ ((xs.mergeSort fun a b => a ≤ b).length : ℤ) - 1 := by
      have : (((xs.mergeSort fun a b => a ≤ b).length : ℚ) - 1)
          = (((xs.mergeSort fun a b => a ≤ b).length : ℤ) - 1 : ℤ) := by
        push_cast
        ring
      calc Int.floor (q * (((xs.mergeSort fun a b => a ≤ b).length : ℚ) - 1))
          ≤ Int.floor (((xs.mergeSort fun a b => a ≤ b).length : ℚ) - 1) :=
            Int.floor_le_floor hh1
        _ = ((xs.mergeSort fun a b => a ≤ b).length : ℤ) - 1 := by
            rw [this]
            exact Int.floor_intCast _
    omega
  have hgd : (xs.mergeSort fun a b => a ≤ b).getD
      ((Int.floor (q * (((xs.mergeSort fun a b => a ≤ b).length : ℚ) - 1))).toNat) 0 = v := by
    rw [List.getD_eq_getElem _ 0 hfl]
    exact halls _ (List.getElem_mem hfl)
  by_cases hsucc : (Int.floor (q * (((xs.mergeSort fun a b => a ≤ b).length : ℚ) - 1))).toNat + 1
      < (xs.mergeSort fun a b => a ≤ b).length
  · rw [hgd, List.getD_eq_getElem _ _ hsucc,
      halls _ (List.getElem_mem hsucc)]
    ring
  · rw [hgd, List.getD_eq_default _ _ (by omega)]
    ring

theorem predictBootstrappingLevel_const (f : MultiSeriesForecaster)
    (store : ResidualStore) (lv : String) (lw : List ℚ) (nBoot seed : ℕ)
    (rl : List (Option ℚ)) (c : ℚ)
    (hrl : store.lookup (residKey f lv) = some rl) (hne : rl ≠ [])
    (hconst : ∀ x ∈ rl, x = some c) (hn : nBoot ≠ 0)
    (q : ℚ) (hq0 : 0 ≤ q) (hq1 : q ≤ 1) :
    quantileLinear q (predictBootstrappingLevel f store lv lw nBoot seed)
      = pointPredict f lv lw + c := by
  have hres : ∀ x ∈ residualValues rl, x = c := by
    intro x hx
    simp only [residualValues, List.mem_map] at hx
    obtain ⟨o, ho, rfl⟩ := hx
    rw [hconst o ho]
    rfl
  have hresne : residualValues rl ≠ [] := by
    simpa [residualValues, List.map_eq_nil_iff] using hne
  apply quantileLinear_const q _ _ hq0 hq1
  · intro h
    have hl := congrArg List.length h
    simp only [predictBootstrappingLevel, hrl, Option.getD_some, List.length_map,
      length_sampleResiduals, List.length_nil] at hl
    exact hn hl
  · intro x hx
    simp only [predictBootstrappingLevel, hrl, Option.getD_some, List.mem_map] at hx
    obtain ⟨e, he, rfl⟩ := hx
    rw [sampleResiduals_const (residualValues rl) c nBoot seed hresne hres e he]

/-- C4: predict_interval returns, for each requested level, the three columns
level, level_lower_bound and level_upper_bound; and when all stored residuals
of a level equal one constant c, the one-step-ahead lower and upper bounds of
that level both equal the point prediction plus c. -/
theorem predict_interval_columns_const_residuals (f : MultiSeriesForecaster)
    (levels : List String) (nBoot seed : ℕ) (lo hi : ℚ) (lv : String)
    (rl : List (Option ℚ)) (c : ℚ) (hlv : lv ∈ levels)
    (hrl : f.in_sample_residuals.lookup (residKey f lv) = some rl)
    (hne : rl ≠ []) (hconst : ∀ x ∈ rl, x = some c) (hn : nBoot ≠ 0)
    (hlo0 : 0 ≤ lo) (hlo1 : lo ≤ 100) (hhi0 : 0 ≤ hi) (hhi1 : hi ≤ 100) :
    ((predict_interval f levels nBoot seed lo hi).map Prod.fst
        = levels.flatMap fun l => [l, l ++ "_lower_bound", l ++ "_upper_bound"])
    ∧ ((lv ++ "_lower_bound",
          pointPredict f lv ((f.lastWindow.lookup lv).getD []) + c)
        ∈ predict_interval f levels nBoot seed lo hi)
    ∧ ((lv ++ "_upper_bound",
          pointPredict f lv ((f.lastWindow.lookup lv).getD []) + c)
        ∈ predict_interval f levels nBoot seed lo hi) := by
  have hqlo : quantileLinear (lo / 100)
      (predictBootstrappingLevel f f.in_sample_residuals lv
        ((f.lastWindow.lookup lv).getD []) nBoot seed)
      = pointPredict f lv ((f.lastWindow.lookup lv).getD []) + c :=
    predictBootstrappingLevel_const f f.in_sample_residuals lv _ nBoot seed rl c
      hrl hne hconst hn _ (by positivity) (by linarith)
  have hqhi : quantileLinear (hi / 100)
      (predictBootstrappingLevel f f.in_sample_residuals lv
        ((f.lastWindow.lookup lv).getD []) nBoot seed)
      = pointPredict f lv ((f.lastWindow.lookup lv).getD []) + c :=
    predictBootstrappingLevel_const f f.in_sample_residuals lv _ nBoot seed rl c
      hrl hne hconst hn _ (by positivity) (by linarith)
  refine ⟨?_, ?_, ?_⟩
  · rw [predict_interval, List.map_flatMap]
    simp
  · refine List.mem_flatMap.mpr ⟨lv, hlv, ?_⟩
    rw [hqlo.symm]
    simp
  · refine List.mem_flatMap.mpr ⟨lv, hlv, ?_⟩
    rw [hqhi.symm]
    simp

/-- Multi-series forecaster with an ordinal encoding, used to instantiate
universally quantified statements at a concrete input. -/
def demoMSForecaster : MultiSeriesForecaster :=
  { reg := fun _ => 0
    encoding := some "ordinal"
    encodeLevel := fun _ => 0
    fitted := true
    lastWindow := [("1", [1, 2, 3])]
    in_sample_residuals := [("1", [some 10, some 10])]
    out_sample_residuals := none }

theorem predict_interval_columns_const_residuals_witness :
    ((predict_interval demoMSForecaster ["1"] 4 0 5 95).map Prod.fst
        = (["1"] : List String).flatMap fun l =>
            [l, l ++ "_lower_bound", l ++ "_upper_bound"])
    ∧ (("1" ++ "_lower_bound",
          pointPredict demoMSForecaster "1"
            ((demoMSForecaster.lastWindow.lookup "1").getD []) + 10)
        ∈ predict_interval demoMSForecaster ["1"] 4 0 5 95)
    ∧ (("1" ++ "_upper_bound",
          pointPredict demoMSForecaster "1"
            ((demoMSForecaster.lastWindow.lookup "1").getD []) + 10)
        ∈ predict_interval demoMSForecaster ["1"] 4 0 5 95) :=
  predict_interval_columns_const_residuals demoMSForecaster ["1"] 4 0 5 95 "1"
    [some 10, some 10] 10 (List.mem_cons_self _ _) rfl (by simp)
    (by intro x hx; simpa using hx) (by decide)
    (by norm_num) (by norm_num) (by norm_num) (by norm_num)

/-- C8: with encoding none, the bootstrap predictions of a level depend only
on its last-window values, not on its label: a level never seen in training
whose last window equals that of a trained level receives exactly the same
bootstrap output. -/
theorem predict_bootstrapping_encoding_none_level_blind
    (f : MultiSeriesForecaster) (store : ResidualStore) (lv₁ lv₂ : String)
    (lw₁ lw₂ : List ℚ) (nBoot seed : ℕ)
    (henc : f.encoding = none) (hlw : lw₁ = lw₂) :
    predictBootstrappingLevel f store lv₁ lw₁ nBoot seed
      = predictBootstrappingLevel f store lv₂ lw₂ nBoot seed := by
  subst hlw
  unfold predictBootstrappingLevel pointPredict featuresFor residKey
  rw [henc]

/-- Multi-series forecaster without per-series encoding (encoding none),
used to instantiate universally quantified statements at a concrete input. -/
def demoMSNone : MultiSeriesForecaster :=
  { reg := fun xs => xs.getD 0 0
    encoding := none
    encodeLevel := fun _ => 0
    fitted := true
    lastWindow := [("1", [1, 2, 3]), ("2", [4, 5, 6])]
    in_sample_residuals := [(unknownLevelKey, [some 1, some 2])]
    out_sample_residuals := none }

theorem predict_bootstrapping_encoding_none_level_blind_witness :
    predictBootstrappingLevel demoMSNone demoMSNone.in_sample_residuals
        "1" [1, 2, 3] 4 0
      = predictBootstrappingLevel demoMSNone demoMSNone.in_sample_residuals
        "3" [1, 2, 3] 4 0 :=
  predict_bootstrapping_encoding_none_level_blind demoMSNone
    demoMSNone.in_sample_residuals "1" "3" [1, 2, 3] [1, 2, 3] 4 0 rfl rfl

/-! Error handling of predict_bootstrapping. -/

/-- Errors a predict call can raise. -/
inductive PredictError where
  | notFitted : String → PredictError
  | valueError : String → PredictError

/-- Message of the NotFittedError raised when predicting before fit. -/
def notFittedMsg : String :=
  "This Forecaster instance is not fitted yet. Call fit with appropriate arguments before using predict."

/-- Message of the ValueError raised when out_sample_residuals is None. -/
def outSampleNoneMsg : String :=
  "forecaster.out_sample_residuals is None. Use in_sample_residuals=True or the set_out_sample_residuals method before predicting."

/-- Message of the ValueError raised when a requested level has no residuals
in out_sample_residuals. -/
def missingLevelMsg (level : String) : String :=
  "Not available residuals for level " ++ level ++ ". Check forecaster.out_sample_residuals."

/-- Message of the ValueError raised when a level has None or NaN values in
its stored residuals. -/
def nanResidualsMsg (level : String) : String :=
  "forecaster residuals for level " ++ level ++ " contains None or NaNs values. Check forecaster.out_sample_residuals."

/-- Validation of one requested level against a residual store: its residuals
must exist and contain no None or NaN values. -/
def checkResidualsLevel (f : MultiSeriesForecaster) (store : ResidualStore)
    (level : String) : Option PredictError :=
  match store.lookup (residKey f level) with
  | none => some (.valueError (missingLevelMsg level))
  | some rl =>
      if rl.any fun x => x.isNone then some (.valueError (nanResidualsMsg level))
      else none

/-- First validation error over the requested levels, if any. -/
def firstResidualError (f : MultiSeriesForecaster) (store : ResidualStore) :
    List String → Option PredictError
  | [] => none
  | lv :: rest =>
      match checkResidualsLevel f store lv with
      | some e => some e
      | none => firstResidualError f store rest

/-- Modelled from the spec: predict_bootstrapping refuses to predict before
fit, and with in_sample_residuals false validates the out-of-sample residual
store before resampling it: the store must exist, hold residuals for every
requested level, and hold no None or NaN values. -/
def predict_bootstrapping (f : MultiSeriesForecaster) (levels : List String)
    (nBoot seed : ℕ) (in_sample_residuals : Bool) :
    Except PredictError (List (String × List ℚ)) :=
  if f.fitted = false then .error (.notFitted notFittedMsg)
  else if in_sample_residuals then
    .ok (levels.map fun lv =>
      (lv, predictBootstrappingLevel f f.in_sample_residuals lv
        ((f.lastWindow.lookup lv).getD []) nBoot seed))
  else
    match f.out_sample_residuals with
    | none => .error (.valueError outSampleNoneMsg)
    | some store =>
      match firstResidualError f store levels with
      | some e => .error e
      | none =>
        .ok (levels.map fun lv =>
          (lv, predictBootstrappingLevel f store lv
            ((f.lastWindow.lookup lv).getD []) nBoot seed))

theorem checkResidualsLevel_valueError (f : MultiSeriesForecaster)
    (store : ResidualStore) (lv : String) (e : PredictError)
    (h : checkResidualsLevel f store lv = some e) : ∃ msg, e = .valueError msg := by
  cases hl : store.lookup (residKey f lv) with
  | none =>
    simp only [checkResidualsLevel, hl, Option.some.injEq] at h
    exact ⟨missingLevelMsg lv, h.symm⟩
  | some rl =>
    by_cases ha : (rl.any fun x => x.isNone) = true
    · simp only [checkResidualsLevel, hl, ha, if_true, Option.some.injEq] at h
      exact ⟨nanResidualsMsg lv, h.symm⟩
    · simp [checkResidualsLevel, hl, ha] at h

theorem firstResidualError_valueError (f : MultiSeriesForecaster)
    (store : ResidualStore) (levels : List String) (e : PredictError)
    (h : firstResidualError f store levels = some e) : ∃ msg, e = .valueError msg := by
  induction levels with
  | nil => cases h
  | cons a rest ih =>
    unfold firstResidualError at h
    cases hc : checkResidualsLevel f store a with
    | none =>
      rw [hc] at h
      exact ih h
    | some e2 =>
      rw [hc] at h
      injection h with h2
      obtain ⟨msg, hm⟩ := checkResidualsLevel_valueError f store a e2 hc
      exact ⟨msg, h2 ▸ hm⟩

theorem firstResidualError_isSome (f : MultiSeriesForecaster)
    (store : ResidualStore) (levels : List String) (lv : String)
    (hlv : lv ∈ levels) (hchk : checkResidualsLevel f store lv ≠ none) :
    firstResidualError f store levels ≠ none := by
  induction levels with
  | nil => cases hlv
  | cons a rest ih =>
    unfold firstResidualError
    cases hc : checkResidualsLevel f store a with
    | some e => simp
    | none =>
      rcases List.mem_cons.mp hlv with rfl | h
      · exact absurd hc hchk
      · exact ih h

/-- C5: predict_bootstrapping raises NotFittedError before fit; and with
in_sample_residuals false it raises ValueError when out_sample_residuals is
None, when a requested level has no residuals stored there, or when the
residuals stored for a requested level contain None or NaN values. -/
theorem predict_bootstrapping_error_handling (f : MultiSeriesForecaster)
    (levels : List String) (nBoot seed : ℕ) (b : Bool) (store : ResidualStore)
    (lv : String) (rl : List (Option ℚ)) :
    (f.fitted = false →
      predict_bootstrapping f levels nBoot seed b
        = .error (.notFitted notFittedMsg))
    ∧ (f.fitted = true → f.out_sample_residuals = none →
      predict_bootstrapping f levels nBoot seed false
        = .error (.valueError outSampleNoneMsg))
    ∧ (f.fitted = true → f.out_sample_residuals = some store → lv ∈ levels →
      store.lookup (residKey f lv) = none →
      ∃ msg, predict_bootstrapping f levels nBoot seed false
        = .error (.valueError msg))
    ∧ (f.fitted = true → f.out_sample_residuals = some store → lv ∈ levels →
      store.lookup (residKey f lv) = some rl →
      (rl.any fun x => x.isNone) = true →
      ∃ msg, predict_bootstrapping f levels nBoot seed false
        = .error (.valueError msg)) := by
  refine ⟨?_, ?_, ?_, ?_⟩
  · intro hfit
    simp [predict_bootstrapping, hfit]
  · intro hfit hout
    simp [predict_bootstrapping, hfit, hout]
  · intro hfit hout hlv hlook
    have hchk : checkResidualsLevel f store lv ≠ none := by
      simp [checkResidualsLevel, hlook]
    obtain ⟨e, he⟩ :=
      Option.ne_none_iff_exists'.mp (firstResidualError_isSome f store levels lv hlv hchk)
    obtain ⟨msg, rfl⟩ := firstResidualError_valueError f store levels e he
    refine ⟨msg, ?_⟩
    simp [predict_bootstrapping, hfit, hout, he]
  · intro hfit hout hlv hlook hnan
    have hchk : checkResidualsLevel f store lv ≠ none := by
      simp [checkResidualsLevel, hlook, hnan]
    obtain ⟨e, he⟩ :=
      Option.ne_none_iff_exists'.mp (firstResidualError_isSome f store levels lv hlv hchk)
    obtain ⟨msg, rfl⟩ := firstResidualError_valueError f store levels e he
    refine ⟨msg, ?_⟩
    simp [predict_bootstrapping, hfit, hout, he]

/-! Calendar-feature preprocessing: DateTimeFeatureTransformer. -/

/-- Calendar features of one timestamp of a DatetimeIndex, as pandas exposes
them. -/
structure DateTimeRow where
  year : ℤ
  month : ℤ
  week : ℤ
  day_of_week : ℤ
  day_of_year : ℤ
  day_of_month : ℤ
  weekend : ℤ
  hour : ℤ
  minute : ℤ
  second : ℤ

/-- Value of a named calendar feature of one timestamp. -/
def featValue (r : DateTimeRow) : String → ℤ
  | "year" => r.year
  | "month" => r.month
  | "week" => r.week
  | "day_of_week" => r.day_of_week
  | "day_of_year" => r.day_of_year
  | "day_of_month" => r.day_of_month
  | "weekend" => r.weekend
  | "hour" => r.hour
  | "minute" => r.minute
  | "second" => r.second
  | _ => 0

/-- Modelled from the spec: the preprocessing module is absent from the tree
(only its tests are); the default cyclical period of each calendar feature,
e.g. 12 for month. -/
def defaultMaxValues : List (String × ℕ) :=
  [("month", 12), ("week", 52), ("day_of_week", 7), ("day_of_month", 31),
   ("day_of_year", 365), ("hour", 24), ("minute", 60), ("second", 60)]

/-- Cyclical period used for a feature: the per-feature override from
max_values when given, the default period otherwise. -/
def maxValueFor (max_values : List (String × ℕ)) (feat : String) : ℕ :=
  match max_values.lookup feat with
  | some m => m
  | none => (defaultMaxValues.lookup feat).getD 1

/-- One cell of the transformed frame: a plain integer column value, or the
sine or cosine of 2 pi v / m for feature value v and period m. -/
inductive Cell where
  | intVal : ℤ → Cell
  | sinVal : ℤ → ℕ → Cell
  | cosVal : ℤ → ℕ → Cell

/-- Real value of a cell. -/
noncomputable def evalCell : Cell → ℝ
  | .intVal n => (n : ℝ)
  | .sinVal v m => Real.sin (2 * Real.pi * (v : ℝ) / (m : ℝ))
  | .cosVal v m => Real.cos (2 * Real.pi * (v : ℝ) / (m : ℝ))

/-- Modelled from the spec: with cyclical encoding the transformer keeps year
and weekend as plain integer columns and replaces every other selected
feature f by the two columns f_sin and f_cos holding the sine and cosine of
2 pi v / m. -/
def cyclicalRow (features : List String) (max_values : List (String × ℕ))
    (r : DateTimeRow) : List (String × Cell) :=
  features.flatMap fun feat =>
    if feat = "year" ∨ feat = "weekend" then
      [(feat, Cell.intVal (featValue r feat))]
    else
      [(feat ++ "_sin", Cell.sinVal (featValue r feat) (maxValueFor max_values feat)),
       (feat ++ "_cos", Cell.cosVal (featValue r feat) (maxValueFor max_values feat))]

/-- Modelled from the spec: fit_transform with cyclical encoding maps each
row of the input frame (indexed by its DatetimeIndex, kept unchanged) to its
encoded calendar features. -/
def fit_transform (features : List String) (max_values : List (String × ℕ))
    (X : List (ℕ × DateTimeRow)) : List (ℕ × List (String × Cell)) :=
  X.map fun p => (p.1, cyclicalRow features max_values p.2)

/-- C7: fit_transform with cyclical encoding keeps the input index and row
count; each row of the output is the encoded row of the corresponding input
timestamp; year and weekend stay plain integer columns; every other selected
feature f yields columns f_sin and f_cos whose values are sin(2 pi v / m) and
cos(2 pi v / m), where the period m is the per-feature max_values override
when given and the default period otherwise. -/
theorem fit_transform_cyclical (features : List String)
    (max_values : List (String × ℕ)) (X : List (ℕ × DateTimeRow))
    (feat : String) (hf : feat ∈ features) (hy : feat ≠ "year")
    (hw : feat ≠ "weekend") :
    ((fit_transform features max_values X).map Prod.fst = X.map Prod.fst)
    ∧ ((fit_transform features max_values X).length = X.length)
    ∧ (∀ p ∈ X, (p.1, cyclicalRow features max_values p.2)
        ∈ fit_transform features max_values X)
    ∧ (∀ p ∈ X, ∃ cs cc,
        (feat ++ "_sin", cs) ∈ cyclicalRow features max_values p.2
        ∧ (feat ++ "_cos", cc) ∈ cyclicalRow features max_values p.2
        ∧ evalCell cs = Real.sin (2 * Real.pi * (featValue p.2 feat : ℝ)
            / (maxValueFor max_values feat : ℝ))
        ∧ evalCell cc = Real.cos (2 * Real.pi * (featValue p.2 feat : ℝ)
            / (maxValueFor max_values feat : ℝ)))
    ∧ (∀ g ∈ features, (g = "year" ∨ g = "weekend") →
        ∀ p ∈ X, (g, Cell.intVal (featValue p.2 g))
          ∈ cyclicalRow features max_values p.2)
    ∧ (∀ m, max_values.lookup feat = some m → maxValueFor max_values feat = m)
    ∧ (max_values.lookup feat = none →
        maxValueFor max_values feat = (defaultMaxValues.lookup feat).getD 1) := by
  have hcond : ¬(feat = "year" ∨ feat = "weekend") := by
    intro h
    rcases h with h | h
    · exact hy h
    · exact hw h
  refine ⟨?_, ?_, ?_, ?_, ?_, ?_, ?_⟩
  · simp [fit_transform]
  · simp [fit_transform]
  · intro p hp
    simp only [fit_transform, List.mem_map]
    exact ⟨p, hp, rfl⟩
  · intro p hp
    refine ⟨Cell.sinVal (featValue p.2 feat) (maxValueFor max_values feat),
      Cell.cosVal (featValue p.2 feat) (maxValueFor max_values feat), ?_, ?_, rfl, rfl⟩
    · refine List.mem_flatMap.mpr ⟨feat, hf, ?_⟩
      rw [if_neg hcond]
      exact List.mem_cons_self _ _
    · refine List.mem_flatMap.mpr ⟨feat, hf, ?_⟩
      rw [if_neg hcond]
      exact List.mem_cons_of_mem _ (List.mem_cons_self _ _)
  · intro g hg hcg p _
    refine List.mem_flatMap.mpr ⟨g, hg, ?_⟩
    rw [if_pos hcg]
    exact List.mem_cons_self _ _
  · intro m hm
    simp [maxValueFor, hm]
  · intro hm
    simp [maxValueFor, hm]

/-- Concrete timestamp row used to instantiate universally quantified
statements: 2022-01-01, a Saturday. -/
def demoRow : DateTimeRow :=
  { year := 2022, month := 1, week := 52, day_of_week := 5, day_of_year := 1,
    day_of_month := 1, weekend := 1, hour := 0, minute := 0, second := 0 }

theorem fit_transform_cyclical_witness :
    ((fit_transform ["year", "month"] [] [(0, demoRow)]).map Prod.fst
        = ([(0, demoRow)]).map Prod.fst)
    ∧ ((fit_transform ["year", "month"] [] [(0, demoRow)]).length
        = ([(0, demoRow)]).length)
    ∧ (∀ p ∈ [(0, demoRow)], (p.1, cyclicalRow ["year", "month"] [] p.2)
        ∈ fit_transform ["year", "month"] [] [(0, demoRow)])
    ∧ (∀ p ∈ [(0, demoRow)], ∃ cs cc,
        ("month" ++ "_sin", cs) ∈ cyclicalRow ["year", "month"] [] p.2
        ∧ ("month" ++ "_cos", cc) ∈ cyclicalRow ["year", "month"] [] p.2
        ∧ evalCell cs = Real.sin (2 * Real.pi * (featValue p.2 "month" : ℝ)
            / (maxValueFor [] "month" : ℝ))
        ∧ evalCell cc = Real.cos (2 * Real.pi * (featValue p.2 "month" : ℝ)
            / (maxValueFor [] "month" : ℝ)))
    ∧ (∀ g ∈ ["year", "month"], (g = "year" ∨ g = "weekend") →
        ∀ p ∈ [(0, demoRow)], (g, Cell.intVal (featValue p.2 g))
          ∈ cyclicalRow ["year", "month"] [] p.2)
    ∧ (∀ m, ([] : List (String × ℕ)).lookup "month" = some m →
        maxValueFor [] "month" = m)
    ∧ (([] : List (String × ℕ)).lookup "month" = none →
        maxValueFor [] "month" = (defaultMaxValues.lookup "month").getD 1) :=
  fit_transform_cyclical ["year", "month"] [] [(0, demoRow)] "month"
    (List.mem_cons_of_mem _ (List.mem_cons_self _ _)) (by decide) (by decide)

/-! ForecasterRnn.utils.create_and_compile_model (source under src/). -/

/-- An argument that the source accepts as int or list. -/
inductive IntOrList where
  | int : ℕ → IntOrList
  | list : List ℕ → IntOrList

/-- The levels argument: str, int, list or None. -/
inductive LevelsArg where
  | str : String → LevelsArg
  | int : ℕ → LevelsArg
  | list : List ℕ → LevelsArg
  | null : LevelsArg

/-- Normalisation done by the source: a list-valued lags or steps argument is
replaced by its length. -/
def normIntOrList : IntOrList → ℕ
  | .int n => n
  | .list l => l.length

/-- Normalisation of levels done by the source: a list becomes its length, a
string counts as 1, None defaults to the number of columns of series, an int
stays. -/
def normLevels (series_cols : ℕ) : LevelsArg → ℕ
  | .list l => l.length
  | .str _ => 1
  | .null => series_cols
  | .int n => n

/-- Units per layer: an int is wrapped into a one-element list. -/
def unitsList : IntOrList → List ℕ
  | .int n => [n]
  | .list l => l

/-- Keras layers the source stacks: recurrent layers (with or without
return_sequences), dense layers and the final reshape. -/
inductive Layer where
  | lstm : ℕ → Bool → Layer
  | rnn : ℕ → Bool → Layer
  | dense : ℕ → Layer
  | reshape : ℕ → ℕ → Layer

/-- Output shape of one layer on an input shape (batch axis omitted):
a recurrent layer needs a rank-2 input and keeps the time axis only with
return_sequences; a dense layer rewrites the last axis; a reshape checks the
element count. -/
def layerOutShape : Layer → List ℕ → Option (List ℕ)
  | .lstm u true, [t, _] => some [t, u]
  | .lstm u false, [_, _] => some [u]
  | .rnn u true, [t, _] => some [t, u]
  | .rnn u false, [_, _] => some [u]
  | .dense u, (d :: ds) => some ((d :: ds).dropLast ++ [u])
  | .reshape a b, s => if s.prod = a * b then some [a, b] else none
  | _, _ => none

/-- Shape obtained by feeding an input shape through a stack of layers. -/
def applyLayers : List Layer → List ℕ → Option (List ℕ)
  | [], s => some s
  | l :: ls, s =>
      match layerOutShape l s with
      | none => none
      | some s2 => applyLayers ls s2

/-- A compiled keras model, reduced to the shape its output layer yields. -/
structure KerasModel where
  outputShape : List ℕ

/-- The recurrent stack of the source: every unit count but the last with
return_sequences, the last without; a recurrent_layer other than LSTM and RNN
raises ValueError, and an empty unit list raises IndexError. -/
def recurrentStack (recurrent_layer : String) (us : List ℕ) :
    Except String (List Layer) :=
  match us.getLast? with
  | none => Except.error "IndexError: list index out of range"
  | some lastU =>
      if recurrent_layer = "LSTM" then
        Except.ok ((us.dropLast.map fun u => Layer.lstm u true)
          ++ [Layer.lstm lastU false])
      else if recurrent_layer = "RNN" then
        Except.ok ((us.dropLast.map fun u => Layer.rnn u true)
          ++ [Layer.rnn lastU false])
      else Except.error ("Invalid recurrent layer: " ++ recurrent_layer)

/-- Dense stack of the source: one dense layer per unit count, none when
dense_units is None. -/
def denseStack : Option IntOrList → List Layer
  | none => []
  | some du => (unitsList du).map Layer.dense

/-- The source's create_and_compile_model: normalise lags, steps and levels,
stack the input layer of shape (lags, n_series), the recurrent layers, the
dense layers, a dense output of levels * steps units and a reshape to
(steps, levels). -/
def create_and_compile_model (series_cols : ℕ) (lags steps : IntOrList)
    (levels : LevelsArg) (recurrent_layer : String)
    (recurrent_units : IntOrList) (dense_units : Option IntOrList) :
    Except String KerasModel :=
  match recurrentStack recurrent_layer (unitsList recurrent_units) with
  | .error e => .error e
  | .ok rstack =>
      match applyLayers (rstack
          ++ denseStack dense_units
          ++ [Layer.dense (normLevels series_cols levels * normIntOrList steps),
              Layer.reshape (normIntOrList steps) (normLevels series_cols levels)])
          [normIntOrList lags, series_cols] with
      | some shape => .ok { outputShape := shape }
      | none => .error "Invalid model shape"

theorem applyLayers_lstm_seq (us : List ℕ) (rest : List Layer) (t f : ℕ) :
    ∃ f2, applyLayers ((us.map fun u => Layer.lstm u true) ++ rest) [t, f]
      = applyLayers rest [t, f2] := by
  induction us generalizing f with
  | nil => exact ⟨f, rfl⟩
  | cons u us ih =>
    obtain ⟨f2, h⟩ := ih u
    exact ⟨f2, by simpa [applyLayers, layerOutShape] using h⟩

theorem applyLayers_rnn_seq (us : List ℕ) (rest : List Layer) (t f : ℕ) :
    ∃ f2, applyLayers ((us.map fun u => Layer.rnn u true) ++ rest) [t, f]
      = applyLayers rest [t, f2] := by
  induction us generalizing f with
  | nil => exact ⟨f, rfl⟩
  | cons u us ih =>
    obtain ⟨f2, h⟩ := ih u
    exact ⟨f2, by simpa [applyLayers, layerOutShape] using h⟩

theorem applyLayers_dense_seq (dus : List ℕ) (rest : List Layer) (d : ℕ) :
    ∃ d2, applyLayers ((dus.map Layer.dense) ++ rest) [d]
      = applyLayers rest [d2] := by
  induction dus generalizing d with
  | nil => exact ⟨d, rfl⟩
  | cons u dus ih =>
    obtain ⟨d2, h⟩ := ih u
    exact ⟨d2, by simpa [applyLayers, layerOutShape] using h⟩

theorem applyLayers_out (steps levels d : ℕ) :
    applyLayers [Layer.dense (levels * steps), Layer.reshape steps levels] [d]
      = some [steps, levels] := by
  simp [applyLayers, layerOutShape, Nat.mul_comm]

theorem applyLayers_tail (dense_units : Option IntOrList) (stepsN levelsN d : ℕ) :
    applyLayers (denseStack dense_units
      ++ [Layer.dense (levelsN * stepsN), Layer.reshape stepsN levelsN]) [d]
      = some [stepsN, levelsN] := by
  cases dense_units with
  | none => simpa [denseStack] using applyLayers_out stepsN levelsN d
  | some du =>
    obtain ⟨d2, hd⟩ := applyLayers_dense_seq (unitsList du)
      [Layer.dense (levelsN * stepsN), Layer.reshape stepsN levelsN] d
    simp only [denseStack]
    rw [hd]
    exact applyLayers_out stepsN levelsN d2

/-- C10: for every series with series_cols columns and valid arguments,
create_and_compile_model returns a model whose output shape is
(steps, levels); a list-valued lags, steps or levels argument stands for its
length, a string levels counts as 1, and levels None defaults to the number
of columns of series. -/
theorem create_and_compile_model_output_shape (series_cols : ℕ)
    (lags steps : IntOrList) (levels : LevelsArg) (recurrent_layer : String)
    (recurrent_units : IntOrList) (dense_units : Option IntOrList)
    (hlayer : recurrent_layer = "LSTM" ∨ recurrent_layer = "RNN")
    (hunits : unitsList recurrent_units ≠ []) :
    (create_and_compile_model series_cols lags steps levels recurrent_layer
        recurrent_units dense_units
      = .ok { outputShape :=
          [normIntOrList steps, normLevels series_cols levels] })
    ∧ (∀ l, normIntOrList (IntOrList.list l) = l.length)
    ∧ (∀ s, normLevels series_cols (LevelsArg.str s) = 1)
    ∧ (normLevels series_cols LevelsArg.null = series_cols) := by
  refine ⟨?_, fun l => rfl, fun s => rfl, rfl⟩
  obtain ⟨lastU, hlast⟩ :=
    Option.isSome_iff_exists.mp (List.getLast?_isSome.mpr hunits)
  rcases hlayer with h | h
  · subst h
    have hrs : recurrentStack "LSTM" (unitsList recurrent_units)
        = .ok (((unitsList recurrent_units).dropLast.map fun u => Layer.lstm u true)
            ++ [Layer.lstm lastU false]) := by
      simp [recurrentStack, hlast]
    simp only [create_and_compile_model, hrs]
    rw [List.append_assoc, List.append_assoc]
    obtain ⟨f2, hseq⟩ := applyLayers_lstm_seq ((unitsList recurrent_units).dropLast)
      ([Layer.lstm lastU false] ++
        (denseStack dense_units
        ++ [Layer.dense (normLevels series_cols levels * normIntOrList steps),
            Layer.reshape (normIntOrList steps) (normLevels series_cols levels)]))
      (normIntOrList lags) series_cols
    rw [hseq]
    have hstep : applyLayers ([Layer.lstm lastU false] ++
        (denseStack dense_units
        ++ [Layer.dense (normLevels series_cols levels * normIntOrList steps),
            Layer.reshape (normIntOrList steps) (normLevels series_cols levels)]))
        [normIntOrList lags, f2]
        = applyLayers
          (denseStack dense_units
          ++ [Layer.dense (normLevels series_cols levels * normIntOrList steps),
              Layer.reshape (normIntOrList steps) (normLevels series_cols levels)])
          [lastU] := by
      simp [applyLayers, layerOutShape]
    rw [hstep, applyLayers_tail]
  · subst h
    have hrs : recurrentStack "RNN" (unitsList recurrent_units)
        = .ok (((unitsList recurrent_units).dropLast.map fun u => Layer.rnn u true)
            ++ [Layer.rnn lastU false]) := by
      simp [recurrentStack, hlast]
    simp only [create_and_compile_model, hrs]
    rw [List.append_assoc, List.append_assoc]
    obtain ⟨f2, hseq⟩ := applyLayers_rnn_seq ((unitsList recurrent_units).dropLast)
      ([Layer.rnn lastU false] ++
        (denseStack dense_units
        ++ [Layer.dense (normLevels series_cols levels * normIntOrList steps),
            Layer.reshape (normIntOrList steps) (normLevels series_cols levels)]))
      (normIntOrList lags) series_cols
    rw [hseq]
    have hstep : applyLayers ([Layer.rnn lastU false] ++
        (denseStack dense_units
        ++ [Layer.dense (normLevels series_cols levels * normIntOrList steps),
            Layer.reshape (normIntOrList steps) (normLevels series_cols levels)]))
        [normIntOrList lags, f2]
        = applyLayers
          (denseStack dense_units
          ++ [Layer.dense (normLevels series_cols levels * normIntOrList steps),
              Layer.reshape (normIntOrList steps) (normLevels series_cols levels)])
          [lastU] := by
      simp [applyLayers, layerOutShape]
    rw [hstep, applyLayers_tail]

theorem create_and_compile_model_output_shape_witness :
    (create_and_compile_model 2 (IntOrList.int 3) (IntOrList.list [1, 2])
        LevelsArg.null "LSTM" (IntOrList.int 100) (some (IntOrList.int 64))
      = .ok { outputShape :=
          [normIntOrList (IntOrList.list [1, 2]), normLevels 2 LevelsArg.null] })
    ∧ (∀ l, normIntOrList (IntOrList.list l) = l.length)
    ∧ (∀ s, normLevels 2 (LevelsArg.str s) = 1)
    ∧ (normLevels 2 LevelsArg.null = 2) :=
  create_and_compile_model_output_shape 2 (IntOrList.int 3) (IntOrList.list [1, 2])
    LevelsArg.null "LSTM" (IntOrList.int 100) (some (IntOrList.int 64))
    (Or.inl rfl) (by decide)

end Skforecast
